/-
Verification of the calculator expression/input state machine of this
repository (src/componets/Calculator/Calculator.jsx), shallowly embedded in
Lean 4. Numbers are modelled by exact rationals in place of IEEE-754 doubles;
the gated dynamic evaluation of the sanitized expression string is modelled by
a lexer and a recursive-descent evaluator over the restricted arithmetic
grammar that the validation step admits; every stateful handler is a pure
function on an explicit state record.
-/
import Mathlib

namespace ReactCalc

/-- State of the calculator component: the accumulated `expression`, the string
shown on screen (`screenNumbers`), and `previousResult` (the last finalized
numeric result, or `none`). Numbers are modelled by exact rationals in place of
IEEE-754 doubles. -/
structure EngineState where
  expression : String
  screenNumbers : String
  previousResult : Option ℚ
deriving DecidableEq

/-- Initial state of the calculator: empty expression, screen shows "0". -/
def initialState : EngineState := ⟨"", "0", none⟩

/-- Error display state: screen shows "Error", expression cleared, no result. -/
def errState : EngineState := ⟨"", "Error", none⟩

/-- Whitespace characters recognised when trimming / skipping leading blanks. -/
def isJsWs (c : Char) : Bool :=
  c == ' ' || c == '\t' || c == '\n' || c == '\r'

/-- Numeric value of a list of decimal digit characters (most significant first). -/
def digitsVal (ds : List Char) : Nat :=
  ds.foldl (fun a c => 10 * a + (c.toNat - '0'.toNat)) 0

/-- Model of the `parseFloat` builtin used by the unary operations: skip leading
whitespace, optional sign, longest prefix of the form `digits [. digits] [e sign digits]`;
`none` when no digits are found (the NaN case; an `Infinity` input cannot arise
from engine states, and would take the same failure path at every call site). -/
def parseFloat (s : String) : Option ℚ :=
  let l := s.data.dropWhile isJsWs
  let sgn : ℚ := match l with
    | '-' :: _ => -1
    | _ => 1
  let l1 : List Char := match l with
    | '-' :: r => r
    | '+' :: r => r
    | r => r
  let ip := l1.takeWhile Char.isDigit
  let r1 := l1.dropWhile Char.isDigit
  let fp : List Char := match r1 with
    | '.' :: r => r.takeWhile Char.isDigit
    | _ => []
  let r2 : List Char := match r1 with
    | '.' :: r => r.dropWhile Char.isDigit
    | r => r
  if ip.isEmpty && fp.isEmpty then none
  else
    let base : ℚ := (digitsVal ip : ℚ) + (digitsVal fp : ℚ) / (10 : ℚ) ^ fp.length
    let scaled : ℚ := match r2 with
      | 'e' :: r | 'E' :: r =>
        let eneg : Bool := match r with
          | '-' :: _ => true
          | _ => false
        let r3 : List Char := match r with
          | '-' :: rr => rr
          | '+' :: rr => rr
          | rr => rr
        let ed := r3.takeWhile Char.isDigit
        if ed.isEmpty then base
        else if eneg then base / (10 : ℚ) ^ digitsVal ed
        else base * (10 : ℚ) ^ digitsVal ed
      | _ => base
    some (sgn * scaled)

/-- Decimal digit character for `n % 10`. -/
def digitChar (n : Nat) : Char := Char.ofNat ('0'.toNat + n % 10)

/-- Decimal digits of `n`, most significant first, computed with explicit fuel
(`n + 1` steps always suffice). -/
def natDigsF : Nat → Nat → List Char
  | 0, _ => []
  | f + 1, n =>
    if n < 10 then [digitChar n]
    else natDigsF f (n / 10) ++ [digitChar (n % 10)]

/-- Decimal digit characters of a natural number, most significant first. -/
def natDigs (n : Nat) : List Char := natDigsF (n + 1) n

/-- Drop trailing '0' characters. -/
def stripZeros (l : List Char) : List Char :=
  (l.reverse.dropWhile (fun c => c == '0')).reverse

/-- Floor of a rational as an integer (`Int.fdiv` is floor division). -/
def ratFloorZ (q : ℚ) : ℤ := Int.fdiv q.num q.den

/-- Rounding step of `toFixed(8)`: the integer `n` minimising `|n / 10^8 - q|`,
ties resolved to the larger `n`. -/
def roundTo8 (q : ℚ) : ℤ := ratFloorZ (q * 100000000 + 1 / 2)

/-- Digits of the rounded value with trailing zeros stripped: the significant
digits of `m` (in `m / 10^8`). -/
def coreDigits (m : ℤ) : List Char := stripZeros (natDigs m.natAbs)

/-- Count of stripped trailing zeros of the digit string of `m`. -/
def padCount (m : ℤ) : Nat := (natDigs m.natAbs).length - (coreDigits m).length

/-- Decimal exponent of `m / 10^8` (floor of its base-10 logarithm). -/
def decExp (m : ℤ) : ℤ := ((natDigs m.natAbs).length : ℤ) - 9

/-- Exponent notation for `m / 10^8`: mantissa digit, point, remaining digits,
then the exponent marker with explicit sign and the exponent digits. -/
def expNotation (m : ℤ) : List Char :=
  (match coreDigits m with
    | [] => []
    | c :: rest => if rest.isEmpty then [c] else c :: '.' :: rest) ++
  (if 0 ≤ decExp m then ['e', '+'] else ['e', '-']) ++ natDigs (decExp m).natAbs

/-- Positional notation for `m / 10^8`: either the significant digits padded
with zeros, or a decimal point placed inside or in front of them. -/
def posNotation (m : ℤ) : List Char :=
  if (8 : ℤ) ≤ (padCount m : ℤ) then coreDigits m ++ List.replicate (padCount m - 8) '0'
  else if 8 - padCount m < (coreDigits m).length then
    (coreDigits m).take ((coreDigits m).length - (8 - padCount m)) ++
      '.' :: (coreDigits m).drop ((coreDigits m).length - (8 - padCount m))
  else '0' :: '.' :: (List.replicate ((8 - padCount m) - (coreDigits m).length) '0' ++ coreDigits m)

/-- Decimal string of the value `m / 10^8`, following the number-to-string
conversion used for display: positional notation, switching to exponent
notation when the decimal exponent is at least 21 or at most -7. -/
def ratDisplay (m : ℤ) : String :=
  if m = 0 then "0"
  else String.mk ((if m < 0 then ['-'] else []) ++
    (if 21 ≤ decExp m ∨ decExp m ≤ -7 then expNotation m else posNotation m))

/-- Model of `formatNumber`: round to at most 8 fractional digits, then print
the shortest decimal representation. The `isFinite` guard of the source (which
yields "Error") is vacuous over exact rationals, where every value is finite. -/
def formatNumber (q : ℚ) : String := ratDisplay (roundTo8 q)

/-- Exact-when-possible rational square root, standing in for the floating
point square root of the source: on perfect squares of rationals it is exact;
elsewhere it is an under-approximation. No claim depends on the value beyond
the domain guard (negative input), which is checked by the caller. -/
def ratSqrt (q : ℚ) : ℚ := (Nat.sqrt (q.num.toNat * q.den) : ℚ) / (q.den : ℚ)

/-- Symbol translation step of `safeEval`: the division sign becomes '/', the
multiplication sign becomes '*', and the comma decimal separator becomes '.'. -/
def sanitize (s : String) : String :=
  String.mk (s.data.map fun c =>
    if c == '÷' then '/' else if c == '×' then '*' else if c == ',' then '.' else c)

/-- Character class accepted by the validation step of `safeEval`:
digits, the four arithmetic operators, the decimal point, parentheses, space. -/
def allowedChar (c : Char) : Bool :=
  c.isDigit || c == '+' || c == '-' || c == '*' || c == '/' ||
    c == '.' || c == '(' || c == ')' || c == ' '

/-- Tokens of the sanitized arithmetic expression grammar. -/
inductive Tok where
  | num (q : ℚ)
  | plus
  | minus
  | mul
  | div
  | lparen
  | rparen
deriving DecidableEq

/-- Lexer for the sanitized expression, with fuel (input length plus one always
suffices, as every step consumes at least one character). Returns `none` on
lexical errors: a bare '.', a doubled '+'/'-' (which would lex as an
increment/decrement operator and is a syntax error on these expressions), and
an integer literal with a redundant leading zero (a syntax error in strict
mode). Doubled '*' or '/' (exponentiation and comment lexemes) are likewise
mapped to failure; no token sequence of the calculator can produce them. -/
def lexChars : Nat → List Char → Option (List Tok)
  | 0, _ => none
  | _ + 1, [] => some []
  | fuel + 1, c :: cs =>
    if c == ' ' then lexChars fuel cs
    else if c == '+' then
      match cs with
      | '+' :: _ => none
      | _ => (lexChars fuel cs).map (Tok.plus :: ·)
    else if c == '-' then
      match cs with
      | '-' :: _ => none
      | _ => (lexChars fuel cs).map (Tok.minus :: ·)
    else if c == '*' then
      match cs with
      | '*' :: _ => none
      | _ => (lexChars fuel cs).map (Tok.mul :: ·)
    else if c == '/' then
      match cs with
      | '/' :: _ => none
      | '*' :: _ => none
      | _ => (lexChars fuel cs).map (Tok.div :: ·)
    else if c == '(' then (lexChars fuel cs).map (Tok.lparen :: ·)
    else if c == ')' then (lexChars fuel cs).map (Tok.rparen :: ·)
    else if c.isDigit then
      let ip := (c :: cs).takeWhile Char.isDigit
      let r1 := (c :: cs).dropWhile Char.isDigit
      if 1 < ip.length && c == '0' then none
      else
        match r1 with
        | '.' :: r2 =>
          let fp := r2.takeWhile Char.isDigit
          let r3 := r2.dropWhile Char.isDigit
          (lexChars fuel r3).map
            (Tok.num ((digitsVal ip : ℚ) + (digitsVal fp : ℚ) / (10 : ℚ) ^ fp.length) :: ·)
        | _ => (lexChars fuel r1).map (Tok.num (digitsVal ip : ℚ) :: ·)
    else if c == '.' then
      match cs with
      | d :: _ =>
        if d.isDigit then
          let fp := cs.takeWhile Char.isDigit
          let r1 := cs.dropWhile Char.isDigit
          (lexChars fuel r1).map (Tok.num ((digitsVal fp : ℚ) / (10 : ℚ) ^ fp.length) :: ·)
        else none
      | [] => none
    else none

/-- Recursive-descent evaluation of a token list, with fuel. The `lvl` code
selects the grammar production: 0 additive start, 1 additive loop (left
associative, accumulator in `acc`), 2 multiplicative start, 3 multiplicative
loop (left associative), 4 unary sign, 5 primary (number or parenthesized
expression). Division by zero yields `none`: the source obtains a non-finite
value there, which the only caller treats as failure. -/
def parseLvl : Nat → Nat → ℚ → List Tok → Option (ℚ × List Tok)
  | 0, _, _, _ => none
  | fuel + 1, lvl, acc, ts =>
    if lvl == 0 then
      match parseLvl fuel 2 0 ts with
      | some (a, r) => parseLvl fuel 1 a r
      | none => none
    else if lvl == 1 then
      match ts with
      | Tok.plus :: r =>
        match parseLvl fuel 2 0 r with
        | some (b, r2) => parseLvl fuel 1 (acc + b) r2
        | none => none
      | Tok.minus :: r =>
        match parseLvl fuel 2 0 r with
        | some (b, r2) => parseLvl fuel 1 (acc - b) r2
        | none => none
      | _ => some (acc, ts)
    else if lvl == 2 then
      match parseLvl fuel 4 0 ts with
      | some (a, r) => parseLvl fuel 3 a r
      | none => none
    else if lvl == 3 then
      match ts with
      | Tok.mul :: r =>
        match parseLvl fuel 4 0 r with
        | some (b, r2) => parseLvl fuel 3 (acc * b) r2
        | none => none
      | Tok.div :: r =>
        match parseLvl fuel 4 0 r with
        | some (b, r2) => if b = 0 then none else parseLvl fuel 3 (acc / b) r2
        | none => none
      | _ => some (acc, ts)
    else if lvl == 4 then
      match ts with
      | Tok.minus :: r =>
        match parseLvl fuel 4 0 r with
        | some (b, r2) => some (-b, r2)
        | none => none
      | Tok.plus :: r => parseLvl fuel 4 0 r
      | _ => parseLvl fuel 5 0 ts
    else
      match ts with
      | Tok.num q :: r => some (q, r)
      | Tok.lparen :: r =>
        match parseLvl fuel 0 0 r with
        | some (v, Tok.rparen :: r2) => some (v, r2)
        | _ => none
      | _ => none

/-- Arithmetic evaluation of a sanitized expression string: lex, then parse the
whole token list with standard precedence and left-to-right associativity. -/
def evalArith (s : String) : Option ℚ :=
  match lexChars (s.length + 1) s.data with
  | none => none
  | some ts =>
    match parseLvl (10 * (ts.length + 3)) 0 0 ts with
    | some (v, []) => some v
    | _ => none

/-- Model of `safeEval`: translate the calculator glyphs, validate against the
restricted character class (the source regex requires a nonempty all-allowed
string), then evaluate arithmetically. `none` stands for every outcome the
caller treats as failure: the thrown validation error, a syntax error, and the
NaN or infinite results (a division by zero). -/
def safeEval (e : String) : Option ℚ :=
  let s := sanitize e
  if 0 < s.length && s.data.all allowedChar then evalArith s else none

/-- Characters that the engine treats as binary operator symbols. -/
def isOpChar (c : Char) : Bool :=
  c == '+' || c == '-' || c == '×' || c == '÷'

/-- Splitting of the expression at binary operator symbols, keeping empty
segments, as the split-on-regex of the source does. -/
def splitOnOps : List Char → List (List Char)
  | [] => [[]]
  | c :: cs =>
    let r := splitOnOps cs
    if isOpChar c then [] :: r
    else
      match r with
      | [] => [[c]]
      | h :: t => (c :: h) :: t

/-- The current numeric run: the segment of the expression after the most
recent binary operator (the last piece of the operator split). -/
def currentRun (e : String) : List Char := (splitOnOps e.data).getLastD []

/-- Test for an expression ending in a binary operator symbol. -/
def lastCharIsOp (e : String) : Bool :=
  match e.data.getLast? with
  | some c => isOpChar c
  | none => false

/-- The four binary operator tokens. -/
def binOps : List String := ["+", "-", "×", "÷"]

/-- The five unary operation tokens handled by the `mathOps` table. -/
def mathKeys : List String := ["%", "+/-", "⅟x", "x²", "²√x"]

/-- Dispatch of the unary operations on a parsed numeric value: `none` is the
null of the source (reciprocal of zero, square root of a negative), `some`
carries the formatted result. -/
def mathOpFun (val : String) (n : ℚ) : Option String :=
  if val == "%" then some (formatNumber (n / 100))
  else if val == "+/-" then some (formatNumber (-n))
  else if val == "⅟x" then
    if n = 0 then none else some (formatNumber (1 / n))
  else if val == "x²" then some (formatNumber (n * n))
  else if val == "²√x" then
    if n < 0 then none else some (formatNumber (ratSqrt n))
  else none

/-- Result of a unary operation applied to the numeric value parsed from the
screen; a non-numeric (or non-finite) screen value fails every operation. -/
def mathOpResult (val screen : String) : Option String :=
  match parseFloat screen with
  | none => none
  | some n => mathOpFun val n

/-- Shared fallback of the button handler: a digit starting a fresh expression
stands alone, any other value is appended; the screen falls back to "0" when
the new expression is empty. -/
def fallbackStep (s : EngineState) (val : String) : EngineState :=
  let newExp := if s.expression == "" && val.data.any Char.isDigit then val
                else s.expression ++ val
  ⟨newExp, if newExp == "" then "0" else newExp, none⟩

/-- Model of `handleButtonClick`: one token-processing step of the calculator,
with the branches in the order of the source. -/
def handleButtonClick (s : EngineState) (val : String) : EngineState :=
  if val == "C" then ⟨"", "0", none⟩
  else if val == "=" then
    if s.expression.data.all isJsWs then s
    else
      match safeEval s.expression with
      | none => ⟨"", "Error", none⟩
      | some r =>
        let f := formatNumber r
        ⟨f, f, some r⟩
  else if val == "⌫" then
    if s.previousResult.isSome then ⟨"", "0", none⟩
    else if s.expression.length ≤ 1 then ⟨"", "0", s.previousResult⟩
    else
      let newExp := String.mk s.expression.data.dropLast
      ⟨newExp, if newExp == "" then "0" else newExp, s.previousResult⟩
  else if val == "CE" then ⟨"", "0", none⟩
  else if val == "," then
    if s.previousResult.isSome then ⟨"0,", "0,", none⟩
    else if (currentRun s.expression).contains ',' then s
    else if s.expression == "" || lastCharIsOp s.expression then
      let newExp := s.expression ++ "0,"
      ⟨newExp, newExp, s.previousResult⟩
    else
      let newExp := s.expression ++ ","
      ⟨newExp, newExp, s.previousResult⟩
  else if mathKeys.contains val then
    match mathOpResult val s.screenNumbers with
    | some r => ⟨r, r, parseFloat r⟩
    | none => ⟨"", "Error", none⟩
  else if s.previousResult.isSome && val.data.any Char.isDigit then
    ⟨val, val, none⟩
  else if binOps.contains val then
    if s.previousResult.isSome then
      let newExp := s.screenNumbers ++ val
      ⟨newExp, newExp, none⟩
    else if lastCharIsOp s.expression then
      let newExp := String.mk s.expression.data.dropLast ++ val
      ⟨newExp, newExp, s.previousResult⟩
    else fallbackStep s val
  else fallbackStep s val

/-- Processing of a whole token sequence from the initial state. -/
def runTokens (ts : List String) : EngineState :=
  ts.foldl handleButtonClick initialState

/-- The ten digit tokens of the keypad. -/
def digitTokens : List String :=
  ["0", "1", "2", "3", "4", "5", "6", "7", "8", "9"]

theorem string_mk_data (l : List Char) : (String.mk l).data = l := rfl

theorem string_data_append (a b : String) : (a ++ b).data = a.data ++ b.data := rfl

theorem string_ne_empty_iff (s : String) : s ≠ "" ↔ s.data ≠ [] := by
  rw [not_iff_not, String.ext_iff]

theorem append_ne_empty_left (a b : String) (ha : a ≠ "") : a ++ b ≠ "" := by
  rw [string_ne_empty_iff] at ha ⊢
  rw [string_data_append]
  simp [ha]

theorem append_ne_empty_right (a b : String) (hb : b ≠ "") : a ++ b ≠ "" := by
  rw [string_ne_empty_iff] at hb ⊢
  rw [string_data_append]
  simp [hb]

theorem natDigsF_cons (f : Nat) :
    ∀ n, 1 ≤ n → n ≤ f → ∃ c l, natDigsF f n = c :: l ∧ c ≠ '0' := by
  induction f with
  | zero => intro n h1 hf; omega
  | succ f ih =>
    intro n h1 hf
    by_cases h : n < 10
    · refine ⟨digitChar n, [], by simp [natDigsF, h], ?_⟩
      interval_cases n <;> decide
    · have hd : n / 10 < n := Nat.div_lt_self (by omega) (by omega)
      have h10 : 1 ≤ n / 10 := (Nat.one_le_div_iff (by omega)).mpr (by omega)
      obtain ⟨c, l, hcl, hc⟩ := ih (n / 10) h10 (by omega)
      exact ⟨c, l ++ [digitChar (n % 10)], by simp [natDigsF, h, hcl], hc⟩

theorem natDigs_cons (n : Nat) (h1 : 1 ≤ n) :
    ∃ c l, natDigs n = c :: l ∧ c ≠ '0' :=
  natDigsF_cons (n + 1) n h1 (by omega)

theorem stripZeros_ne_nil (l : List Char) (c : Char) (rest : List Char)
    (hl : l = c :: rest) (hc : c ≠ '0') : stripZeros l ≠ [] := by
  unfold stripZeros
  intro h
  have hdw := List.dropWhile_eq_nil_iff.mp (List.reverse_eq_nil_iff.mp h)
  have hcm : c ∈ l.reverse := by simp [hl]
  have := hdw c hcm
  simp only [beq_iff_eq] at this
  exact hc this

theorem coreDigits_ne_nil (m : ℤ) (hm : m ≠ 0) : coreDigits m ≠ [] := by
  have hn : 1 ≤ m.natAbs := Int.natAbs_pos.mpr hm
  obtain ⟨c, l, hcl, hc⟩ := natDigs_cons m.natAbs hn
  exact stripZeros_ne_nil _ c l hcl hc

theorem expNotation_ne_nil (m : ℤ) : expNotation m ≠ [] := by
  unfold expNotation
  intro h
  rw [List.append_eq_nil, List.append_eq_nil] at h
  obtain ⟨⟨-, h2⟩, -⟩ := h
  split at h2 <;> simp at h2

theorem posNotation_ne_nil (m : ℤ) (hm : m ≠ 0) : posNotation m ≠ [] := by
  unfold posNotation
  have hcore := coreDigits_ne_nil m hm
  split
  · simp [hcore]
  · split
    · intro h
      rw [List.append_eq_nil] at h
      exact absurd h.2 (by simp)
    · simp

theorem ratDisplay_ne_empty (m : ℤ) : ratDisplay m ≠ "" := by
  unfold ratDisplay
  split
  · decide
  · next hm =>
    rw [string_ne_empty_iff, string_mk_data, Ne, List.append_eq_nil]
    intro h
    rcases h with ⟨-, h2⟩
    revert h2
    split
    · exact expNotation_ne_nil m
    · exact posNotation_ne_nil m hm

theorem formatNumber_ne_empty (q : ℚ) : formatNumber q ≠ "" :=
  ratDisplay_ne_empty _

theorem mathOpResult_eq_some (v scr : String) (n : ℚ)
    (hp : parseFloat scr = some n) : mathOpResult v scr = mathOpFun v n := by
  unfold mathOpResult
  rw [hp]

theorem mathOpResult_eq_none (v scr : String)
    (hp : parseFloat scr = none) : mathOpResult v scr = none := by
  unfold mathOpResult
  rw [hp]

theorem mathOpResult_ne_empty (v scr r : String)
    (h : mathOpResult v scr = some r) : r ≠ "" := by
  cases hp : parseFloat scr with
  | none => rw [mathOpResult_eq_none v scr hp] at h; exact absurd h (by simp)
  | some n =>
    rw [mathOpResult_eq_some v scr n hp] at h
    unfold mathOpFun at h
    split_ifs at h <;>
    first
      | exact Option.noConfusion h
      | (injection h with h2; subst h2; exact formatNumber_ne_empty _)

theorem ne_empty_of_any_digit (val : String)
    (h : val.data.any Char.isDigit = true) : val ≠ "" := by
  intro he
  subst he
  simp at h

theorem ne_empty_of_binop (val : String) (h : binOps.contains val = true) :
    val ≠ "" := by
  intro he
  subst he
  simp [binOps] at h

theorem mkState_screen (a b : String) (p : Option ℚ) :
    (⟨a, b, p⟩ : EngineState).screenNumbers = b := rfl

theorem fallback_display_ne (s : EngineState) (val : String) :
    (fallbackStep s val).screenNumbers ≠ "" := by
  intro hc
  unfold fallbackStep at hc
  simp only [mkState_screen] at hc
  repeat' split at hc
  all_goals first
    | (rename_i hne; exact hne (beq_iff_eq.mpr hc))
    | exact absurd hc (by decide)

/-- Branch lemma: the clear-all token resets to the initial state. -/
theorem hb_clear (s : EngineState) : handleButtonClick s "C" = ⟨"", "0", none⟩ := rfl

/-- Branch lemma: the clear-entry token resets to the initial state. -/
theorem hb_clearEntry (s : EngineState) : handleButtonClick s "CE" = ⟨"", "0", none⟩ := rfl

/-- Branch lemma: the evaluate token. -/
theorem hb_eval (s : EngineState) : handleButtonClick s "=" =
    (if s.expression.data.all isJsWs = true then s
     else match safeEval s.expression with
       | none => ⟨"", "Error", none⟩
       | some r => ⟨formatNumber r, formatNumber r, some r⟩) := rfl

/-- Branch lemma: the backspace token. -/
theorem hb_backspace (s : EngineState) : handleButtonClick s "⌫" =
    (if s.previousResult.isSome = true then ⟨"", "0", none⟩
     else if s.expression.length ≤ 1 then ⟨"", "0", s.previousResult⟩
     else ⟨String.mk s.expression.data.dropLast,
       if (String.mk s.expression.data.dropLast == "") = true then "0"
       else String.mk s.expression.data.dropLast, s.previousResult⟩) := rfl

/-- Branch lemma: the decimal-separator token. -/
theorem hb_comma (s : EngineState) : handleButtonClick s "," =
    (if s.previousResult.isSome = true then ⟨"0,", "0,", none⟩
     else if (currentRun s.expression).contains ',' = true then s
     else if (s.expression == "" || lastCharIsOp s.expression) = true then
       ⟨s.expression ++ "0,", s.expression ++ "0,", s.previousResult⟩
     else ⟨s.expression ++ ",", s.expression ++ ",", s.previousResult⟩) := rfl

/-- Branch lemma: the five unary operation tokens. -/
theorem hb_math (s : EngineState) (val : String) (h : val ∈ mathKeys) :
    handleButtonClick s val =
      (match mathOpResult val s.screenNumbers with
        | some r => ⟨r, r, parseFloat r⟩
        | none => ⟨"", "Error", none⟩) := by
  fin_cases h <;> rfl

/-- An and with a false right operand is not true. -/
theorem and_false_ne_true (a b : Bool) (hb : b = false) : ¬((a && b) = true) := by
  simp [hb]

/-- Branch lemma: the four binary operator tokens. -/
theorem hb_binop (s : EngineState) (val : String) (h : val ∈ binOps) :
    handleButtonClick s val =
      (if s.previousResult.isSome = true then
        ⟨s.screenNumbers ++ val, s.screenNumbers ++ val, none⟩
       else if lastCharIsOp s.expression = true then
        ⟨String.mk s.expression.data.dropLast ++ val,
          String.mk s.expression.data.dropLast ++ val, s.previousResult⟩
       else fallbackStep s val) := by
  fin_cases h <;>
  · unfold handleButtonClick
    rw [if_neg (by decide), if_neg (by decide), if_neg (by decide), if_neg (by decide),
        if_neg (by decide), if_neg (by decide),
        if_neg (and_false_ne_true _ _ (by decide)), if_pos (by decide)]

/-- Branch lemma: any other token (not a control token, not a unary operation,
not a binary operator) either restarts from a digit after a result, or is
handled by the shared fallback. -/
theorem hb_other (s : EngineState) (val : String) (h1 : val ≠ "C")
    (h2 : val ≠ "=") (h3 : val ≠ "⌫") (h4 : val ≠ "CE") (h5 : val ≠ ",")
    (h6 : val ∉ mathKeys) (h7 : val ∉ binOps) :
    handleButtonClick s val =
      (if (s.previousResult.isSome && val.data.any Char.isDigit) = true then
        ⟨val, val, none⟩
       else fallbackStep s val) := by
  unfold handleButtonClick
  rw [if_neg (by simp only [beq_iff_eq]; exact h1),
      if_neg (by simp only [beq_iff_eq]; exact h2),
      if_neg (by simp only [beq_iff_eq]; exact h3),
      if_neg (by simp only [beq_iff_eq]; exact h4),
      if_neg (by simp only [beq_iff_eq]; exact h5),
      if_neg (by simpa using h6)]
  have h7c : ¬(binOps.contains val = true) := by simpa using h7
  rw [if_neg h7c]

theorem c5_step (s : EngineState) (val : String) (h : s.screenNumbers ≠ "") :
    (handleButtonClick s val).screenNumbers ≠ "" := by
  by_cases h1 : val = "C"
  · rw [h1, hb_clear]; decide
  by_cases h2 : val = "="
  · rw [h2, hb_eval]
    intro hc
    rcases hse : safeEval s.expression with _ | r <;>
      simp only [hse, apply_ite EngineState.screenNumbers] at hc <;>
      split at hc
    · exact h hc
    · exact (by decide : ("Error" : String) ≠ "") hc
    · exact h hc
    · exact formatNumber_ne_empty r hc
  by_cases h3 : val = "⌫"
  · rw [h3, hb_backspace]
    intro hc
    simp only [apply_ite EngineState.screenNumbers] at hc
    repeat' split at hc
    all_goals try exact (by decide : ("0" : String) ≠ "") hc
    next hne => exact hne (beq_iff_eq.mpr hc)
  by_cases h4 : val = "CE"
  · rw [h4, hb_clearEntry]; decide
  by_cases h5 : val = ","
  · rw [h5, hb_comma]
    intro hc
    simp only [apply_ite EngineState.screenNumbers] at hc
    repeat' split at hc
    · exact (by decide : ("0," : String) ≠ "") hc
    · exact h hc
    · exact append_ne_empty_right _ _ (by decide) hc
    · exact append_ne_empty_right _ _ (by decide) hc
  by_cases h6 : val ∈ mathKeys
  · rw [hb_math s val h6]
    intro hc
    rcases hmr : mathOpResult val s.screenNumbers with _ | r <;>
      simp only [hmr] at hc
    · exact (by decide : ("Error" : String) ≠ "") hc
    · exact mathOpResult_ne_empty _ _ _ hmr hc
  by_cases h7 : val ∈ binOps
  · rw [hb_binop s val h7]
    intro hc
    simp only [apply_ite EngineState.screenNumbers] at hc
    repeat' split at hc
    · exact append_ne_empty_left _ _ h hc
    · exact append_ne_empty_right _ _ (ne_empty_of_binop _ (by simpa using h7)) hc
    · exact fallback_display_ne _ _ hc
  · rw [hb_other s val h1 h2 h3 h4 h5 h6 h7]
    intro hc
    simp only [apply_ite EngineState.screenNumbers] at hc
    split at hc
    · next hcond =>
        rw [Bool.and_eq_true] at hcond
        exact ne_empty_of_any_digit _ hcond.2 hc
    · exact fallback_display_ne _ _ hc

/-- C1: an accumulated expression that, after symbol translation, contains any
character outside the allowed class is rejected by the evaluator (`safeEval`
returns the failure value), and the evaluate token then produces the error
display instead of crashing; the rejection is a pure character-class check in
front of a structured arithmetic evaluator. -/
theorem c1_invalid_chars_rejected (s : EngineState)
    (hbad : ∃ c ∈ (sanitize s.expression).data, allowedChar c = false)
    (hnb : s.expression.data.all isJsWs = false) :
    safeEval s.expression = none ∧ handleButtonClick s "=" = errState := by
  have hval : (sanitize s.expression).data.all allowedChar = false := by
    rw [List.all_eq_false]
    obtain ⟨c, hc, hcf⟩ := hbad
    exact ⟨c, hc, by simp [hcf]⟩
  have hse : safeEval s.expression = none := by
    unfold safeEval
    rw [if_neg]
    simp [hval]
  refine ⟨hse, ?_⟩
  show (if s.expression.data.all isJsWs = true then s
    else match safeEval s.expression with
      | none => ⟨"", "Error", none⟩
      | some r => let f := formatNumber r; ⟨f, f, some r⟩) = errState
  rw [if_neg (by simp [hnb]), hse]
  rfl

theorem c1_wit :
    safeEval "2+a" = none ∧ handleButtonClick ⟨"2+a", "2+a", none⟩ "=" = errState :=
  c1_invalid_chars_rejected ⟨"2+a", "2+a", none⟩ ⟨'a', by decide, by decide⟩ (by decide)

/-- C2: the token sequence 2, +, 3, ×, 4, evaluate from the initial state gives
display "14" (multiplication binds tighter than addition), and the evaluator is
left associative on operators of equal precedence (20-3-4 gives 13, not 21). -/
theorem c2_precedence_14 :
    runTokens ["2", "+", "3", "×", "4", "="] = ⟨"14", "14", some 14⟩ ∧
    safeEval "2+3×4" = some 14 ∧ safeEval "20-3-4" = some 13 := by
  refine ⟨?_, ?_, ?_⟩ <;> with_unfolding_all decide

/-- C3: when evaluation of a nonblank expression fails (malformed input,
division by zero, or any non-finite result - the cases where `safeEval` yields
the failure value), the evaluate token produces exactly the error display, with
the expression cleared and the result unset; in particular the sequence
5, ÷, 0, evaluate ends with display "Error" and empty expression. The step
function is total, so no exception escapes to the caller. -/
theorem c3_eval_failure_error (s : EngineState)
    (hnb : s.expression.data.all isJsWs = false)
    (hfail : safeEval s.expression = none) :
    handleButtonClick s "=" = errState ∧
    runTokens ["5", "÷", "0", "="] = errState := by
  constructor
  · show (if s.expression.data.all isJsWs = true then s
      else match safeEval s.expression with
        | none => ⟨"", "Error", none⟩
        | some r => let f := formatNumber r; ⟨f, f, some r⟩) = errState
    rw [if_neg (by simp [hnb]), hfail]
    rfl
  · with_unfolding_all decide

theorem c3_wit : handleButtonClick ⟨"5÷0", "5÷0", none⟩ "=" = errState :=
  (c3_eval_failure_error ⟨"5÷0", "5÷0", none⟩ (by decide)
    (by with_unfolding_all decide)).1

/-- C4: a unary operation token acts on the numeric value parsed from the
current display. On success the formatted result becomes both expression and
display and the result slot is set to the numeric value re-parsed from that
formatted string, as the source does; on domain failure (reciprocal of zero,
square root of a negative, non-numeric or non-finite display) the engine
enters the error display. -/
theorem c4_unary_on_display (s : EngineState) :
    (∀ x : ℚ, parseFloat s.screenNumbers = some x →
      handleButtonClick s "%" =
        ⟨formatNumber (x / 100), formatNumber (x / 100),
          parseFloat (formatNumber (x / 100))⟩ ∧
      handleButtonClick s "+/-" =
        ⟨formatNumber (-x), formatNumber (-x), parseFloat (formatNumber (-x))⟩ ∧
      handleButtonClick s "x²" =
        ⟨formatNumber (x * x), formatNumber (x * x),
          parseFloat (formatNumber (x * x))⟩ ∧
      (x ≠ 0 → handleButtonClick s "⅟x" =
        ⟨formatNumber (1 / x), formatNumber (1 / x),
          parseFloat (formatNumber (1 / x))⟩) ∧
      (x = 0 → handleButtonClick s "⅟x" = errState) ∧
      (0 ≤ x → handleButtonClick s "²√x" =
        ⟨formatNumber (ratSqrt x), formatNumber (ratSqrt x),
          parseFloat (formatNumber (ratSqrt x))⟩) ∧
      (x < 0 → handleButtonClick s "²√x" = errState)) ∧
    (parseFloat s.screenNumbers = none →
      ∀ val ∈ mathKeys, handleButtonClick s val = errState) := by
  have hstep : ∀ v ∈ mathKeys, handleButtonClick s v =
      (match mathOpResult v s.screenNumbers with
        | some r => ⟨r, r, parseFloat r⟩
        | none => ⟨"", "Error", none⟩) := by
    intro v hv
    fin_cases hv <;>
    · unfold handleButtonClick
      rw [if_neg (by decide), if_neg (by decide), if_neg (by decide),
          if_neg (by decide), if_neg (by decide), if_pos (by decide)]
  constructor
  · intro x hx
    refine ⟨?_, ?_, ?_, ?_, ?_, ?_, ?_⟩
    · rw [hstep "%" (by decide)]
      have hm : mathOpResult "%" s.screenNumbers = some (formatNumber (x / 100)) := by
        unfold mathOpResult
        rw [hx]
        rfl
      rw [hm]
    · rw [hstep "+/-" (by decide)]
      have hm : mathOpResult "+/-" s.screenNumbers = some (formatNumber (-x)) := by
        unfold mathOpResult
        rw [hx]
        rfl
      rw [hm]
    · rw [hstep "x²" (by decide)]
      have hm : mathOpResult "x²" s.screenNumbers = some (formatNumber (x * x)) := by
        unfold mathOpResult
        rw [hx]
        rfl
      rw [hm]
    · intro hx0
      rw [hstep "⅟x" (by decide)]
      have hm : mathOpResult "⅟x" s.screenNumbers = some (formatNumber (1 / x)) := by
        unfold mathOpResult
        rw [hx]
        show (if x = 0 then none else some (formatNumber (1 / x))) = _
        rw [if_neg hx0]
      rw [hm]
    · intro hx0
      rw [hstep "⅟x" (by decide)]
      have hm : mathOpResult "⅟x" s.screenNumbers = none := by
        unfold mathOpResult
        rw [hx]
        show (if x = 0 then none else some (formatNumber (1 / x))) = _
        rw [if_pos hx0]
      rw [hm]
      rfl
    · intro hx0
      rw [hstep "²√x" (by decide)]
      have hm : mathOpResult "²√x" s.screenNumbers = some (formatNumber (ratSqrt x)) := by
        unfold mathOpResult
        rw [hx]
        show (if x < 0 then none else some (formatNumber (ratSqrt x))) = _
        rw [if_neg (not_lt.mpr hx0)]
      rw [hm]
    · intro hx0
      rw [hstep "²√x" (by decide)]
      have hm : mathOpResult "²√x" s.screenNumbers = none := by
        unfold mathOpResult
        rw [hx]
        show (if x < 0 then none else some (formatNumber (ratSqrt x))) = _
        rw [if_pos hx0]
      rw [hm]
      rfl
  · intro hx val hval
    rw [hstep val hval]
    have hm : mathOpResult val s.screenNumbers = none := by
      unfold mathOpResult
      rw [hx]
    rw [hm]
    rfl

theorem c4_wit :
    handleButtonClick ⟨"4", "4", none⟩ "⅟x" = ⟨"0.25", "0.25", some (1/4)⟩ ∧
    handleButtonClick ⟨"0", "0", none⟩ "⅟x" = errState := by
  constructor
  · have h := ((c4_unary_on_display ⟨"4", "4", none⟩).1 4
      (by with_unfolding_all decide)).2.2.2.1 (by norm_num)
    rw [h]
    with_unfolding_all decide
  · exact ((c4_unary_on_display ⟨"0", "0", none⟩).1 0
      (by with_unfolding_all decide)).2.2.2.2.1 rfl

/-- C5: the display string is never empty. It is "0" in the initial state;
processing any token preserves nonemptiness of the display; consequently after
any token sequence from the initial state the display is nonempty; and
backspace on an empty or single-character expression always yields display
"0", never the empty string. -/
theorem c5_display_never_empty :
    initialState.screenNumbers = "0" ∧
    (∀ (s : EngineState) (val : String), s.screenNumbers ≠ "" →
      (handleButtonClick s val).screenNumbers ≠ "") ∧
    (∀ ts : List String, (runTokens ts).screenNumbers ≠ "") ∧
    (∀ s : EngineState, s.expression.length ≤ 1 →
      (handleButtonClick s "⌫").screenNumbers = "0") := by
  have run : ∀ (ts : List String) (s : EngineState), s.screenNumbers ≠ "" →
      (ts.foldl handleButtonClick s).screenNumbers ≠ "" := by
    intro ts
    induction ts with
    | nil => intro s hs; exact hs
    | cons t ts ih => intro s hs; exact ih _ (c5_step s t hs)
  refine ⟨rfl, c5_step, fun ts => run ts initialState (by decide), ?_⟩
  intro s hlen
  rw [hb_backspace]
  by_cases hp : s.previousResult.isSome = true
  · rw [if_pos hp]
  · rw [if_neg hp, if_pos hlen]

theorem c5_wit : (handleButtonClick ⟨"1", "1", none⟩ "+").screenNumbers ≠ "" :=
  c5_display_never_empty.2.1 ⟨"1", "1", none⟩ "+" (by decide)

/-- C6: from every state, the clear-all token and the clear-entry token both
produce exactly the initial state; clear is therefore a constant function of
the state, and idempotent. -/
theorem c6_clear_constant (s : EngineState) :
    handleButtonClick s "C" = initialState ∧
    handleButtonClick s "CE" = initialState ∧
    handleButtonClick (handleButtonClick s "C") "C" = handleButtonClick s "C" := by
  exact ⟨rfl, rfl, rfl⟩

theorem c6_wit : handleButtonClick errState "C" = initialState :=
  (c6_clear_constant errState).1

/-- C7: with no finalized result showing and an expression that ends in a
binary operator symbol, a binary operator token replaces that trailing
operator: the new expression is the old one with its last character swapped
for the new operator, mirrored on the display, with the result still unset;
when the character before the trailing operator is not itself an operator, the
new expression then ends in exactly one operator symbol. -/
theorem c7_consecutive_operator_collapse (s : EngineState) (op : String)
    (hop : op ∈ binOps) (hp : s.previousResult = none) (pre : List Char)
    (c : Char) (hc : isOpChar c = true) (he : s.expression.data = pre ++ [c]) :
    (handleButtonClick s op).expression = String.mk (pre ++ op.data) ∧
    (handleButtonClick s op).screenNumbers = String.mk (pre ++ op.data) ∧
    (handleButtonClick s op).previousResult = none ∧
    ((pre.reverse.takeWhile isOpChar).length = 0 →
      (((handleButtonClick s op).expression.data.reverse.takeWhile isOpChar).length = 1)) := by
  have hlast : lastCharIsOp s.expression = true := by
    unfold lastCharIsOp
    rw [he, List.getLast?_concat]
    simpa using hc
  have hdl : s.expression.data.dropLast = pre := by
    rw [he, List.dropLast_concat]
  fin_cases hop <;>
  · unfold handleButtonClick
    rw [if_neg (by decide), if_neg (by decide), if_neg (by decide), if_neg (by decide),
        if_neg (by decide), if_neg (by decide), if_neg (by simp [hp]), if_pos (by decide),
        if_neg (by simp [hp]), if_pos hlast, hdl]
    refine ⟨rfl, rfl, hp, ?_⟩
    intro h0
    have h0l : pre.reverse.takeWhile isOpChar = [] := List.length_eq_zero.mp h0
    simp [List.takeWhile_cons, isOpChar, h0l]

theorem c7_wit : (handleButtonClick ⟨"2+", "2+", none⟩ "-").expression = "2-" := by
  have h := c7_consecutive_operator_collapse ⟨"2+", "2+", none⟩ "-" (by decide) rfl
    ['2'] '+' (by decide) rfl
  rw [h.1]
  rfl

/-- C8: the two no-op conditions leave the state identical and raise no error:
an evaluate token on a blank (empty or all-whitespace) expression, and a
decimal-separator token while no finalized result is shown and the current
numeric run (the expression segment after the most recent binary operator)
already contains a decimal separator. -/
theorem c8_noop_conditions (s : EngineState) :
    (s.expression.data.all isJsWs = true → handleButtonClick s "=" = s) ∧
    (s.previousResult = none → (currentRun s.expression).contains ',' = true →
      handleButtonClick s "," = s) := by
  constructor
  · intro h
    show (if s.expression.data.all isJsWs = true then s
      else match safeEval s.expression with
        | none => ⟨"", "Error", none⟩
        | some r => let f := formatNumber r; ⟨f, f, some r⟩) = s
    rw [if_pos h]
  · intro hp hc
    show (if s.previousResult.isSome = true then ⟨"0,", "0,", none⟩
      else if (currentRun s.expression).contains ',' = true then s
      else if (s.expression == "" || lastCharIsOp s.expression) = true then
        let newExp := s.expression ++ "0,"
        ⟨newExp, newExp, s.previousResult⟩
      else
        let newExp := s.expression ++ ","
        ⟨newExp, newExp, s.previousResult⟩) = s
    rw [if_neg (by simp [hp]), if_pos hc]

theorem c8_wit :
    handleButtonClick ⟨"1,5", "1,5", none⟩ "," = ⟨"1,5", "1,5", none⟩ ∧
    handleButtonClick initialState "=" = initialState := by
  constructor
  · exact (c8_noop_conditions ⟨"1,5", "1,5", none⟩).2 rfl (by decide)
  · exact (c8_noop_conditions initialState).1 (by decide)

/-- C9: from the error display state, any digit token restarts normal
operation with expression and display equal to that digit, and either clear
token returns the initial state. -/
theorem c9_error_recovery :
    (∀ d ∈ digitTokens, handleButtonClick errState d = ⟨d, d, none⟩) ∧
    handleButtonClick errState "C" = initialState ∧
    handleButtonClick errState "CE" = initialState := by
  refine ⟨?_, rfl, rfl⟩
  intro d hd
  fin_cases hd <;> rfl

theorem c9_wit : handleButtonClick errState "5" = ⟨"5", "5", none⟩ :=
  c9_error_recovery.1 "5" (by decide)

/-- C10: the alignment invariant is preserved by every token step: whenever
the stored result is non-null, expression and display are the identical
string. Every branch that sets a non-null result writes the same formatted
string to both expression and display; every other branch either leaves the
state unchanged or leaves the result null. -/
theorem c10_result_alignment (s : EngineState) (val : String)
    (h : s.previousResult ≠ none → s.expression = s.screenNumbers) :
    (handleButtonClick s val).previousResult ≠ none →
      (handleButtonClick s val).expression = (handleButtonClick s val).screenNumbers := by
  by_cases h1 : val = "C"
  · rw [h1, hb_clear]; exact fun hp => absurd rfl hp
  by_cases h2 : val = "="
  · rw [h2, hb_eval]
    rcases hse : safeEval s.expression with _ | r <;> simp only [hse] <;> split
    · exact h
    · exact fun hp => absurd rfl hp
    · exact h
    · exact fun _ => rfl
  by_cases h3 : val = "⌫"
  · rw [h3, hb_backspace]
    split
    · exact fun hp => absurd rfl hp
    · split
      · next hps _ =>
        have hpn : s.previousResult = none := Option.not_isSome_iff_eq_none.mp hps
        rw [hpn]
        exact fun hp => absurd rfl hp
      · next hps _ =>
        have hpn : s.previousResult = none := Option.not_isSome_iff_eq_none.mp hps
        rw [hpn]
        exact fun hp => absurd rfl hp
  by_cases h4 : val = "CE"
  · rw [h4, hb_clearEntry]; exact fun hp => absurd rfl hp
  by_cases h5 : val = ","
  · rw [h5, hb_comma]
    split
    · exact fun hp => absurd rfl hp
    · split
      · exact h
      · split
        · next hps _ _ =>
          have hpn : s.previousResult = none := Option.not_isSome_iff_eq_none.mp hps
          rw [hpn]
          exact fun hp => absurd rfl hp
        · next hps _ _ =>
          have hpn : s.previousResult = none := Option.not_isSome_iff_eq_none.mp hps
          rw [hpn]
          exact fun hp => absurd rfl hp
  by_cases h6 : val ∈ mathKeys
  · rw [hb_math s val h6]
    rcases hmr : mathOpResult val s.screenNumbers with _ | r <;> simp only [hmr]
    · exact fun hp => absurd rfl hp
    · exact fun _ => trivial
  by_cases h7 : val ∈ binOps
  · rw [hb_binop s val h7]
    split
    · exact fun hp => absurd rfl hp
    · split
      · next hps _ =>
        have hpn : s.previousResult = none := Option.not_isSome_iff_eq_none.mp hps
        rw [hpn]
        exact fun hp => absurd rfl hp
      · exact fun hp => absurd rfl hp
  · rw [hb_other s val h1 h2 h3 h4 h5 h6 h7]
    split
    · exact fun hp => absurd rfl hp
    · exact fun hp => absurd rfl hp

theorem c10_wit :
    (handleButtonClick ⟨"14", "14", some 14⟩ "x²").expression =
      (handleButtonClick ⟨"14", "14", some 14⟩ "x²").screenNumbers :=
  c10_result_alignment ⟨"14", "14", some 14⟩ "x²" (fun _ => rfl)
    (by with_unfolding_all decide)

end ReactCalc
